import Mathlib

/-!
Shallow embedding of the daylight syntax-highlighting server, covering the
request-handling core in `lib/server.rs`, the error projection in
`lib/errors.rs`, the language registry in `src/languages.rs`, and the
HTML / Spans processors in `lib/processors/`.

External effects (the tree-sitter highlighter, the tokio scheduler, the
flatbuffers byte layout) are modelled by explicit oracle parameters: a
per-file task either completes with a tree-sitter result, fails to join,
or hits its deadline, and the out-of-order harvest of `FuturesUnordered`
is modelled as an arbitrary permutation of the pointwise per-file results.
-/

namespace Daylight

/-- Wire language enum (`common::Language` from the flatbuffers schema).
The flatbuffers default value is `Unspecified`. -/
inductive FbLanguage where
  | Unspecified
  | Agda
  | Bash
  | C
  | Cpp
  | Css
  | Go
  | Html
  | Java
  | JavaScript
  | Json
  | Python
  | Ruby
  | Rust
  | TypeScript
  | Tsx
  deriving DecidableEq, Repr

/-- Wire error-code enum (`common::ErrorCode`). -/
inductive ErrorCode where
  | NoError
  | TimedOut
  | UnknownLanguage
  | FileTooLarge
  | UnknownError
  deriving DecidableEq, Repr

/-- Soft per-file errors (`NonFatalError` in `lib/errors.rs`). -/
inductive NonFatalError where
  | Cancelled
  | EmptyFile
  | FileTooLarge
  | InvalidLanguage
  | ThreadError
  | TimedOut
  | UnknownError
  deriving DecidableEq, Repr

/-- Errors surfaced by the tree-sitter highlighting library (`ts::Error`). -/
inductive TsError where
  | Cancelled
  | InvalidLanguage
  | Unknown
  deriving DecidableEq, Repr

/-- `impl From<ts::Error> for NonFatalError` in `lib/errors.rs`. -/
def nonFatalOfTs : TsError → NonFatalError
  | .Cancelled => .TimedOut
  | .InvalidLanguage => .InvalidLanguage
  | .Unknown => .UnknownError

/-- `impl Into<common::ErrorCode> for NonFatalError` in `lib/errors.rs`. -/
def toErrorCode : NonFatalError → ErrorCode
  | .TimedOut => .TimedOut
  | .Cancelled => .TimedOut
  | .ThreadError => .UnknownError
  | .UnknownError => .UnknownError
  | .InvalidLanguage => .UnknownLanguage
  | .FileTooLarge => .FileTooLarge
  | .EmptyFile => .NoError

/-- Hard request-scoped errors (`FatalError` in `lib/errors.rs`).
The timeout bound is carried in milliseconds. -/
inductive FatalError where
  | DecodeError
  | TimeoutTooLarge (maxMs : Nat)
  deriving DecidableEq, Repr

/-- A language configuration (`languages::Config`); the opaque prepared
tree-sitter configuration is omitted, the registry metadata is kept. -/
structure Config where
  fb_language : FbLanguage
  name : String
  extensions : List String
  deriving DecidableEq, Repr

/-- The ordered classification-label table `ALL_HIGHLIGHT_NAMES`. -/
def ALL_HIGHLIGHT_NAMES : List String :=
  ["attribute", "comment", "constant", "constant.builtin", "constructor",
   "embedded", "function", "function.builtin", "keyword", "module",
   "number", "operator", "property", "property.builtin", "punctuation",
   "punctuation.bracket", "punctuation.delimiter", "punctuation.special",
   "string", "string.special", "tag", "type", "type.builtin",
   "variable", "variable.builtin", "variable.parameter"]

/-- Static registry entry for Agda. -/
def AGDA : Config := ⟨.Agda, "agda", ["agda", "lagda"]⟩

/-- Static registry entry for Bash. -/
def BASH : Config := ⟨.Bash, "bash", ["sh", "bash"]⟩

/-- Static registry entry for C. -/
def C : Config := ⟨.C, "c", ["c", "h"]⟩

/-- Static registry entry for C++. -/
def CPP : Config := ⟨.Cpp, "cpp", ["cpp", "cc", "cxx", "hpp", "hxx", "hh"]⟩

/-- Static registry entry for CSS. -/
def CSS : Config := ⟨.Css, "css", ["css"]⟩

/-- Static registry entry for Go. -/
def GO : Config := ⟨.Go, "go", ["go"]⟩

/-- Static registry entry for HTML. -/
def HTML : Config := ⟨.Html, "html", ["html", "htm"]⟩

/-- Static registry entry for Java. -/
def JAVA : Config := ⟨.Java, "java", ["java"]⟩

/-- Static registry entry for JavaScript. -/
def JAVASCRIPT : Config := ⟨.JavaScript, "javascript", ["js", "mjs", "cjs"]⟩

/-- Static registry entry for JSON. -/
def JSON : Config := ⟨.Json, "json", ["json"]⟩

/-- Static registry entry for Python. -/
def PYTHON : Config := ⟨.Python, "python", ["py", "pyw"]⟩

/-- Static registry entry for Ruby. -/
def RUBY : Config := ⟨.Ruby, "ruby", ["rb"]⟩

/-- Static registry entry for Rust. -/
def RUST : Config := ⟨.Rust, "rust", ["rs"]⟩

/-- Static registry entry for TypeScript. -/
def TYPESCRIPT : Config := ⟨.TypeScript, "typescript", ["ts"]⟩

/-- Static registry entry for TSX. -/
def TSX : Config := ⟨.Tsx, "tsx", ["tsx"]⟩

/-- `all_languages()` in `src/languages.rs`, in source order. -/
def all_languages : List Config :=
  [AGDA, BASH, C, CPP, CSS, GO, HTML, JAVA, JAVASCRIPT, JSON,
   PYTHON, RUBY, RUST, TYPESCRIPT, TSX]

/-- `from_extension`: lookup in the extension map.  The map is built by
inserting every language's extensions; extensions are pairwise distinct
across languages, so a first-match scan is equivalent. -/
def from_extension (ext : String) : Option Config :=
  all_languages.find? (fun l => l.extensions.contains ext)

/-- `from_name`: lookup in the name map. -/
def from_name (n : String) : Option Config :=
  all_languages.find? (fun l => l.name = n)

/-- Split a character list at every occurrence of a separator; like
`String.splitOn` with a one-character separator, an empty input yields
one empty piece. -/
def splitOnChar (sep : Char) : List Char → List (List Char)
  | [] => [[]]
  | c :: cs =>
    match splitOnChar sep cs with
    | [] => if c = sep then [[], []] else [[c]]
    | h :: t => if c = sep then [] :: h :: t else (c :: h) :: t

/-- The final path component, as `std::path::Path::file_name`: the last
component after splitting on separators, skipping empty and `.`
components; `..` yields no file name. -/
def fileNameOf (path : String) : Option String :=
  let comps := (splitOnChar '/' path.toList).filter
    (fun c => c ≠ ([] : List Char) && c ≠ ['.'])
  match comps.getLast? with
  | none => none
  | some c => if c = ['.', '.'] then none else some (String.mk c)

/-- The extension of one file-name component, as `std::path::Path`
computes it: the portion after the last dot, except that a name with no
dot, or whose only dot is leading (a hidden file), has no extension. -/
def extensionOfName (name : String) : Option String :=
  if name = ".." then none
  else
    match splitOnChar '.' name.toList with
    | [] => none
    | [_] => none
    | first :: rest =>
      if first = ([] : List Char) && rest.length = 1 then none
      else rest.getLast?.map String.mk

/-- `Path::extension()` of a whole path string. -/
def pathExtension (path : String) : Option String :=
  (fileNameOf path).bind extensionOfName

/-- `from_path` in `src/languages.rs`: extension of the path, then
registry lookup by extension. -/
def from_path (path : String) : Option Config :=
  (pathExtension path).bind from_extension

/-- `TryFrom<FbLanguage> for &Config` in `src/languages.rs`
(`Unspecified` does not convert), as the `Option` the call site uses. -/
def tryFromFbLanguage : FbLanguage → Option Config
  | .Agda => some AGDA
  | .Bash => some BASH
  | .C => some C
  | .Cpp => some CPP
  | .Css => some CSS
  | .Go => some GO
  | .Html => some HTML
  | .Java => some JAVA
  | .JavaScript => some JAVASCRIPT
  | .Json => some JSON
  | .Python => some PYTHON
  | .Ruby => some RUBY
  | .Rust => some RUST
  | .TypeScript => some TYPESCRIPT
  | .Tsx => some TSX
  | .Unspecified => none

/-- Maximum single-file size accepted by the decoder: 256 MiB. -/
def MAX_FILE_SIZE : Nat := 256 * 1024 * 1024

/-- One decoded request file entry (`html::File`).  Bytes are modelled as
lists of naturals; `ident` is a u16 carried verbatim. -/
structure File where
  ident : Nat
  filename : Option String
  contents : Option (List Nat)
  language : FbLanguage
  include_injections : Bool
  deriving DecidableEq, Repr

/-- `file.contents().is_none_or(|s| s.is_empty())`. -/
def contentsIsEmpty (file : File) : Bool :=
  match file.contents with
  | none => true
  | some c => c.isEmpty

/-- The language-resolution step at the top of `prepare_file_contents`:
infer from the filename path when the declared tag is `Unspecified`,
otherwise convert the declared tag. -/
def languageFor (file : File) : Option Config :=
  if file.language = FbLanguage.Unspecified then from_path (file.filename.getD "")
  else tryFromFbLanguage file.language

/-- `prepare_file_contents` in `lib/server.rs`: resolves the language,
then checks the content policies in source order (unresolved language,
then missing-or-empty contents, then the 256 MiB cap).  Returns the
resolved language (the `&mut Option` out-parameter) alongside the
result. -/
def prepare_file_contents (file : File) :
    Option Config × Except NonFatalError (List Nat) :=
  let language := languageFor file
  let result :=
    if language.isNone then Except.error NonFatalError.InvalidLanguage
    else if contentsIsEmpty file then Except.error NonFatalError.EmptyFile
    else if (file.contents.getD []).length > MAX_FILE_SIZE then
      Except.error NonFatalError.FileTooLarge
    else Except.ok (file.contents.getD [])
  (language, result)

/-- The language the decoder resolved for a file entry. -/
def resolvedLanguage (file : File) : Option Config :=
  (prepare_file_contents file).1

/-- `HighlightOutput` in `lib/server.rs`. -/
inductive HighlightOutput where
  | Success (ident : Nat) (filename : String) (language : Config)
      (lines : List String)
  | Failure (ident : Nat) (filename : String) (language : Option Config)
      (reason : NonFatalError)
  deriving DecidableEq, Repr

namespace HighlightOutput

/-- `HighlightOutput::ident`. -/
def identOf : HighlightOutput → Nat
  | .Success ident _ _ _ => ident
  | .Failure ident _ _ _ => ident

/-- `HighlightOutput::filename`; the `Failure` arm returns
`Default::default()`, the empty string. -/
def filenameOf : HighlightOutput → String
  | .Success _ filename _ _ => filename
  | .Failure _ _ _ _ => ""

/-- `HighlightOutput::language`; the missing-language default is the
flatbuffers default `Unspecified`. -/
def languageOf : HighlightOutput → FbLanguage
  | .Success _ _ language _ => language.fb_language
  | .Failure _ _ language _ => (language.map Config.fb_language).getD .Unspecified

/-- `HighlightOutput::error_code`. -/
def errorCodeOf : HighlightOutput → ErrorCode
  | .Success _ _ _ _ => .NoError
  | .Failure _ _ _ reason => toErrorCode reason

end HighlightOutput

/-- The `highlight` worker function in `lib/server.rs`; the tree-sitter
run (highlight + render) is an oracle producing either rendered lines or
a `ts::Error`. -/
def highlight (ident : Nat) (filename : String) (language : Option Config)
    (tsResult : Except TsError (List String)) : HighlightOutput :=
  match language with
  | none => .Failure ident filename none .InvalidLanguage
  | some lang =>
    match tsResult with
    | .ok lines => .Success ident filename lang lines
    | .error e => .Failure ident filename (some lang) (nonFatalOfTs e)

deriving instance DecidableEq for Except

/-- How one scheduled per-file future resolves: the blocking task
completes with a tree-sitter result, the join fails (cancelled or
otherwise), or the per-file deadline elapses first. -/
inductive TaskResult where
  | completed (ts : Except TsError (List String))
  | joinError (cancelled : Bool)
  | timedOut
  deriving DecidableEq, Repr

/-- The per-file branch of `html_handler`: a decode failure is turned
into a pre-resolved `Failure` future (ignoring the scheduler); otherwise
the blocking task result, join failure, or timeout decides the outcome. -/
def processFile (file : File) (res : TaskResult) : HighlightOutput :=
  let ident := file.ident
  let filename := file.filename.getD ""
  let (language, prep) := prepare_file_contents file
  match prep with
  | .error e => .Failure ident filename language e
  | .ok _ =>
    match res with
    | .completed ts => highlight ident filename language ts
    | .joinError c =>
        .Failure ident filename language
          (if c then NonFatalError.Cancelled else NonFatalError.ThreadError)
    | .timedOut => .Failure ident filename language .TimedOut

/-- Pointwise per-file results of one request, before the unordered
harvest. -/
def fileOutputs (files : List File) (results : List TaskResult) :
    List HighlightOutput :=
  (files.zip results).map (fun fr => processFile fr.1 fr.2)

/-- Decoded request (`html::Request`): optional files vector and a u64
`timeout_ms`. -/
structure Request where
  files : Option (List File)
  timeout_ms : Nat
  deriving DecidableEq, Repr

/-- Server state (`Daylight` in `lib/server.rs`), timeouts in ms. -/
structure ServerState where
  default_per_file_timeout : Nat
  max_per_file_timeout : Nat
  deriving DecidableEq, Repr

/-- The effective per-file deadline chosen by `html_handler`:
`timeout_ms == 0` selects the configured default. -/
def effectiveTimeout (state : ServerState) (timeout_ms : Nat) : Nat :=
  if timeout_ms = 0 then state.default_per_file_timeout else timeout_ms

/-- One encoded response document (`html::Document`). -/
structure Document where
  ident : Nat
  filename : String
  language : FbLanguage
  lines : Option (List String)
  error_code : ErrorCode
  deriving DecidableEq, Repr

/-- The document `build_response` in `lib/server.rs` creates for one
outcome: the lines vector is always present, empty for non-successes. -/
def mkDocument (doc : HighlightOutput) : Document :=
  { ident := doc.identOf
    filename := doc.filenameOf
    language := doc.languageOf
    lines := some (match doc with
      | .Success _ _ _ lines => lines
      | _ => [])
    error_code := doc.errorCodeOf }

/-- The binary response envelope (`html::Response`). -/
structure HtmlResponse where
  documents : Option (List Document)
  deriving DecidableEq, Repr

/-- `build_response` in `lib/server.rs`: encodes every outcome into a
document and answers HTTP 200. -/
def build_response (doc_results : List HighlightOutput) : Nat × HtmlResponse :=
  (200, { documents := some (doc_results.map mkDocument) })

/-- `html_handler` in `lib/server.rs`, after a successful decode: checks
the timeout bound, short-circuits an empty batch, and otherwise encodes
the harvested outcomes.  `harvested` stands for the completion-order
output of `FuturesUnordered`; theorems constrain it to be a permutation
of the pointwise results. -/
def html_handler (state : ServerState) (request : Request)
    (harvested : List HighlightOutput) :
    Except FatalError (Nat × HtmlResponse) :=
  let timeout := effectiveTimeout state request.timeout_ms
  if timeout > state.max_per_file_timeout then
    .error (.TimeoutTooLarge state.max_per_file_timeout)
  else
    let files := request.files.getD []
    if files.isEmpty then .ok (build_response [])
    else .ok (build_response harvested)

/-- The HTTP view of the handler result: a fatal error renders as a 400
plain-text response carrying no documents (`IntoResponse for
FatalError`); success passes the encoded envelope through. -/
def respond (r : Except FatalError (Nat × HtmlResponse)) :
    Nat × Option (List Document) :=
  match r with
  | .error _ => (400, none)
  | .ok (s, resp) => (s, resp.documents)

/-- The value of the request's shared cancellation token after the first
`n` per-file events have been processed.  The token starts at 0
(`Arc::default()`); the only store site in the request core is the
timeout arm of `html_handler`, which stores 1; every other event leaves
the token untouched. -/
def tokenAfter (results : List TaskResult) : Nat → Nat
  | 0 => 0
  | n + 1 =>
    match results[n]? with
    | some .timedOut => 1
    | _ => tokenAfter results n

/-- Generic per-file outcome (`Outcome<T>` in `lib/processors/mod.rs`). -/
inductive Outcome (T : Type) where
  | Success (ident : Nat) (filename : String) (language : Config)
      (contents : List T)
  | Failure (ident : Nat) (filename : String) (language : Option Config)
      (reason : NonFatalError)
  deriving DecidableEq, Repr

namespace Outcome

/-- `Outcome::ident`. -/
def identOf : Outcome T → Nat
  | .Success ident _ _ _ => ident
  | .Failure ident _ _ _ => ident

/-- `Outcome::filename`; the `Failure` arm returns `Default::default()`,
the empty string. -/
def filenameOf : Outcome T → String
  | .Success _ filename _ _ => filename
  | .Failure _ _ _ _ => ""

/-- `Outcome::language`, defaulting to `Unspecified` when absent. -/
def languageOf : Outcome T → FbLanguage
  | .Success _ _ language _ => language.fb_language
  | .Failure _ _ language _ => (language.map Config.fb_language).getD .Unspecified

/-- `Outcome::error_code`. -/
def errorCodeOf : Outcome T → ErrorCode
  | .Success _ _ _ _ => .NoError
  | .Failure _ _ _ reason => toErrorCode reason

end Outcome

/-- The document `HtmlProcessor::build_response` creates for one
outcome: the lines vector is present only for successes. -/
def htmlProcDocument (o : Outcome String) : Document :=
  { ident := o.identOf
    filename := o.filenameOf
    language := o.languageOf
    lines := match o with
      | .Success _ _ _ contents => some contents
      | _ => none
    error_code := o.errorCodeOf }

/-- Tree-sitter highlight events (`ts::HighlightEvent`). -/
inductive HighlightEvent where
  | Source (sourceStart sourceEnd : Nat)
  | HighlightStart (idx : Nat)
  | HighlightEnd
  deriving DecidableEq, Repr

/-- One turn of the `SpansProcessor::process` event loop, matching on the
event and the current active index exactly as the source does: `Source`
while active emits a span; `HighlightStart` while inactive activates;
`HighlightEnd` while inactive stores `None`; every other pairing is
logged and dropped, leaving the state unchanged. -/
def spansStep (st : Option Nat × List (Nat × Nat × Nat))
    (evt : HighlightEvent) : Option Nat × List (Nat × Nat × Nat) :=
  match evt, st.1 with
  | .Source s e, some active => (st.1, st.2 ++ [(active, s, e)])
  | .HighlightStart h, none => (some h, st.2)
  | .HighlightEnd, none => (none, st.2)
  | _, _ => st

/-- The `SpansProcessor` event loop over the highlight iterator: `Err`
items are skipped by the `if let Ok(evt)` guard; `Ok` events fold through
`spansStep` starting from no active index and no spans. -/
def spansLoop (events : List (Except TsError HighlightEvent)) :
    Option Nat × List (Nat × Nat × Nat) :=
  events.foldl
    (fun st item =>
      match item with
      | .ok evt => spansStep st evt
      | .error _ => st)
    (none, [])

/-- The span list the Spans processor emits for an event stream. -/
def spansOf (events : List (Except TsError HighlightEvent)) :
    List (Nat × Nat × Nat) :=
  (spansLoop events).2

/-! ### Theorems -/

/-- C8: the projection of internal per-file failure reasons to wire
error codes is exactly the fixed table: `TimedOut` and `Cancelled` map
to wire `TimedOut`; `ThreadError` (worker-join failure) and
`UnknownError` map to wire `UnknownError`; `InvalidLanguage` maps to
`UnknownLanguage`; `FileTooLarge` maps to `FileTooLarge`; `EmptyFile`
maps to `NoError`; and every `Success` outcome maps to `NoError`. -/
theorem error_code_projection_table (o : HighlightOutput) :
    o.errorCodeOf =
      match o with
      | .Success _ _ _ _ => ErrorCode.NoError
      | .Failure _ _ _ .TimedOut => ErrorCode.TimedOut
      | .Failure _ _ _ .Cancelled => ErrorCode.TimedOut
      | .Failure _ _ _ .ThreadError => ErrorCode.UnknownError
      | .Failure _ _ _ .UnknownError => ErrorCode.UnknownError
      | .Failure _ _ _ .InvalidLanguage => ErrorCode.UnknownLanguage
      | .Failure _ _ _ .FileTooLarge => ErrorCode.FileTooLarge
      | .Failure _ _ _ .EmptyFile => ErrorCode.NoError := by
  rcases o with _ | ⟨_, _, _, r⟩
  · rfl
  · cases r <;> rfl

/-- C9 counterexample: in the `/v1/html` handler's `build_response`
(`lib/server.rs`), a `Failure` document does not omit the line vector:
it carries a present-but-empty `lines` field, refuting the claim that
failures omit the vector entirely. -/
theorem failure_document_lines_present :
    (mkDocument (.Failure 1 "f.c" none .TimedOut)).lines = some [] ∧
    (mkDocument (.Failure 1 "f.c" none .TimedOut)).lines ≠ none := by
  decide

/-- C9 amended: in `HtmlProcessor::build_response`, every `Failure`
document omits the lines vector entirely (the field is absent) and
records the mapped error code, while the monolithic `build_response`
in `lib/server.rs` instead encodes a present-but-empty lines vector,
also recording the mapped error code. -/
theorem failure_document_lines_encoding (ident : Nat) (filename : String)
    (language : Option Config) (reason : NonFatalError) :
    (htmlProcDocument (.Failure ident filename language reason)).lines = none ∧
    (htmlProcDocument (.Failure ident filename language reason)).error_code
      = toErrorCode reason ∧
    (mkDocument (.Failure ident filename language reason)).lines = some [] ∧
    (mkDocument (.Failure ident filename language reason)).error_code
      = toErrorCode reason :=
  ⟨rfl, rfl, rfl, rfl⟩

/-- C2: at the failing input — a work unit with ident 7, filename
"a.c", declared language C and empty contents — the outcome structure
preserves both ident and filename, but the encoded document's filename
is the empty string, not the work unit's "a.c": both `HighlightOutput::filename`
and the generic `Outcome::filename` return the default (empty) string
for `Failure`, contradicting the preservation invariant. -/
theorem failure_document_filename_dropped :
    processFile ⟨7, some "a.c", some [], .C, false⟩ .timedOut
      = .Failure 7 "a.c" (some C) .EmptyFile ∧
    (mkDocument (.Failure 7 "a.c" (some C) .EmptyFile)).ident = 7 ∧
    (mkDocument (.Failure 7 "a.c" (some C) .EmptyFile)).filename = "" ∧
    Outcome.filenameOf (T := String) (.Failure 7 "a.c" (some C) .EmptyFile) = "" ∧
    "a.c" ≠ "" := by
  decide

/-- C3: at the failing input — the event stream HighlightStart 0,
HighlightEnd, Source 1 2 — the Spans event loop leaves the active index
set after the balanced start/end pair (the `HighlightEnd`-while-active
pairing falls into the logged-and-dropped wildcard arm) and attributes
the subsequent source span to the closed highlight, emitting (0, 1, 2)
where the spec requires the index to be reset and nothing emitted. -/
theorem spans_highlight_end_keeps_active :
    spansLoop [.ok (.HighlightStart 0), .ok .HighlightEnd, .ok (.Source 1 2)]
      = (some 0, [(0, 1, 2)]) := by
  decide

/-- The resolved language is the first component of the prepared pair. -/
theorem resolvedLanguage_eq (file : File) :
    resolvedLanguage file = languageFor file := rfl

/-- With a resolved language and empty contents, preparation
short-circuits to `EmptyFile`. -/
theorem prepare_of_empty (file : File) (cfg : Config)
    (hlang : languageFor file = some cfg)
    (hempty : contentsIsEmpty file = true) :
    prepare_file_contents file = (some cfg, .error .EmptyFile) := by
  simp [prepare_file_contents, hlang, hempty]

/-- C4 counterexample: a file entry with empty contents whose language
cannot be resolved (declared `Unspecified`, extension not in the
registry) is reported as `UnknownLanguage`, not `NoError`: the language
check in `prepare_file_contents` precedes the empty-contents check. -/
theorem empty_contents_unresolved_language :
    (mkDocument (processFile ⟨3, some "x.unknownext", some [], .Unspecified, false⟩
        .timedOut)).error_code = ErrorCode.UnknownLanguage ∧
    ErrorCode.UnknownLanguage ≠ ErrorCode.NoError := by
  decide

/-- C4 amended: for every file entry whose contents are missing or empty
and whose language resolves, the work is short-circuited before
scheduling (the outcome is independent of the scheduled task's fate) to
`Failure{EmptyFile}`, and the response document carries
`error_code = NoError` with no highlighted lines; when the language does
not resolve, the outcome is `InvalidLanguage` even for empty contents. -/
theorem empty_contents_short_circuit (file : File) (res res2 : TaskResult)
    (hempty : contentsIsEmpty file = true)
    (hlang : (resolvedLanguage file).isSome = true) :
    processFile file res
      = .Failure file.ident (file.filename.getD "") (resolvedLanguage file)
          .EmptyFile ∧
    processFile file res = processFile file res2 ∧
    (mkDocument (processFile file res)).error_code = ErrorCode.NoError ∧
    (mkDocument (processFile file res)).lines = some [] := by
  obtain ⟨cfg, hcfg⟩ := Option.isSome_iff_exists.mp hlang
  rw [resolvedLanguage_eq] at hcfg
  have hprep := prepare_of_empty file cfg hcfg hempty
  have h1 : ∀ r : TaskResult, processFile file r
      = .Failure file.ident (file.filename.getD "") (some cfg) .EmptyFile := by
    intro r
    unfold processFile
    rw [hprep]
  rw [resolvedLanguage_eq, hcfg]
  exact ⟨h1 res, (h1 res).trans (h1 res2).symm, by rw [h1 res]; rfl, by rw [h1 res]; rfl⟩

/-- C4 amended, witnessed at a concrete empty C file. -/
theorem empty_contents_short_circuit_witness :
    processFile ⟨5, some "e.c", some [], .C, false⟩ .timedOut
      = .Failure 5 "e.c" (resolvedLanguage ⟨5, some "e.c", some [], .C, false⟩)
          .EmptyFile ∧
    (mkDocument (processFile ⟨5, some "e.c", some [], .C, false⟩ .timedOut)).error_code
      = ErrorCode.NoError := by
  have h := empty_contents_short_circuit ⟨5, some "e.c", some [], .C, false⟩
    .timedOut (.completed (.ok [])) (by decide) (by decide)
  exact ⟨h.1, h.2.2.1⟩

/-- C5: for a file entry whose declared tag is `Unspecified`, the
language is inferred from the filename extension (`from_path`); when the
filename has no extension, or its extension matches no registry entry,
the outcome is `Failure{InvalidLanguage}` and the encoded document
carries `error_code = UnknownLanguage`. -/
theorem unspecified_language_inference (file : File) (res : TaskResult)
    (hunspec : file.language = FbLanguage.Unspecified)
    (hfail : pathExtension (file.filename.getD "") = none ∨
      ∃ ext, pathExtension (file.filename.getD "") = some ext ∧
        from_extension ext = none) :
    resolvedLanguage file = from_path (file.filename.getD "") ∧
    processFile file res
      = .Failure file.ident (file.filename.getD "") none .InvalidLanguage ∧
    (mkDocument (processFile file res)).error_code = ErrorCode.UnknownLanguage := by
  have hL : languageFor file = from_path (file.filename.getD "") := by
    simp [languageFor, hunspec]
  have hnone : from_path (file.filename.getD "") = none := by
    unfold from_path
    rcases hfail with h | ⟨ext, h1, h2⟩
    · rw [h]; rfl
    · rw [h1]; simpa using h2
  have hprep : prepare_file_contents file = (none, .error .InvalidLanguage) := by
    simp [prepare_file_contents, hL, hnone]
  have h2 : processFile file res
      = .Failure file.ident (file.filename.getD "") none .InvalidLanguage := by
    unfold processFile
    rw [hprep]
  exact ⟨by rw [resolvedLanguage_eq, hL], h2, by rw [h2]; rfl⟩

/-- C5, witnessed at a file with an extension outside the registry. -/
theorem unspecified_language_inference_witness :
    processFile ⟨7, some "x.unknownext", some [104], .Unspecified, false⟩
        (.completed (.ok []))
      = .Failure 7 "x.unknownext" none .InvalidLanguage ∧
    (mkDocument (processFile ⟨7, some "x.unknownext", some [104], .Unspecified, false⟩
        (.completed (.ok [])))).error_code = ErrorCode.UnknownLanguage := by
  have h := unspecified_language_inference
    ⟨7, some "x.unknownext", some [104], .Unspecified, false⟩ (.completed (.ok []))
    rfl (Or.inr ⟨"unknownext", by decide, by decide⟩)
  exact ⟨h.2.1, h.2.2⟩

/-- C6: a request-level `timeout_ms` of 0 makes the effective per-file
deadline the configured default; a `timeout_ms` exceeding the configured
maximum makes the handler fail with `TimeoutTooLarge` before any
per-file outcome is produced (the result is independent of the harvested
outcomes), rendered as an HTTP 400 response carrying no documents. -/
theorem timeout_bounds_handling (state : ServerState) (request : Request)
    (harvested harvested2 : List HighlightOutput) :
    (request.timeout_ms = 0 →
      effectiveTimeout state request.timeout_ms = state.default_per_file_timeout) ∧
    (request.timeout_ms > state.max_per_file_timeout →
      html_handler state request harvested
        = .error (.TimeoutTooLarge state.max_per_file_timeout) ∧
      html_handler state request harvested = html_handler state request harvested2 ∧
      respond (html_handler state request harvested) = (400, none)) := by
  constructor
  · intro h
    simp [effectiveTimeout, h]
  · intro h
    have hne : request.timeout_ms ≠ 0 := by omega
    have hh : ∀ hv : List HighlightOutput, html_handler state request hv
        = .error (.TimeoutTooLarge state.max_per_file_timeout) := by
      intro hv
      simp [html_handler, effectiveTimeout, hne, h]
    refine ⟨hh harvested, (hh harvested).trans (hh harvested2).symm, ?_⟩
    rw [hh harvested]
    rfl

/-- C6, witnessed against a default of 30000 ms, a maximum of 60000 ms,
and a request-level timeout of 120000 ms. -/
theorem timeout_bounds_handling_witness :
    effectiveTimeout ⟨30000, 60000⟩ 0 = 30000 ∧
    html_handler ⟨30000, 60000⟩ ⟨some [], 120000⟩ []
      = .error (.TimeoutTooLarge 60000) ∧
    respond (html_handler ⟨30000, 60000⟩ ⟨some [], 120000⟩ []) = (400, none) := by
  have h0 := (timeout_bounds_handling ⟨30000, 60000⟩ ⟨some [], 0⟩ [] []).1 rfl
  have h1 := (timeout_bounds_handling ⟨30000, 60000⟩ ⟨some [], 120000⟩ [] []).2
    (by decide)
  exact ⟨h0, h1.1, h1.2.2⟩

/-- The cancellation token never exceeds 1: the only store site in the
request core writes the constant 1. -/
theorem tokenAfter_le_one (results : List TaskResult) (n : Nat) :
    tokenAfter results n ≤ 1 := by
  induction n with
  | zero => exact Nat.zero_le 1
  | succ n ih =>
    unfold tokenAfter
    rcases h : results[n]? with _ | r
    · simpa [h] using ih
    · cases r <;> simp [h] <;> exact ih

/-- One processing step never lowers the token. -/
theorem tokenAfter_step (results : List TaskResult) (n : Nat) :
    tokenAfter results n ≤ tokenAfter results (n + 1) := by
  conv_rhs => rw [tokenAfter]
  rcases h : results[n]? with _ | r
  · simp [h]
  · cases r <;> simp [h]
    exact tokenAfter_le_one results n

/-- The token value is monotone along the request's event sequence. -/
theorem tokenAfter_mono (results : List TaskResult) {n m : Nat} (h : n ≤ m) :
    tokenAfter results n ≤ tokenAfter results m := by
  induction m with
  | zero =>
    have : n = 0 := Nat.le_zero.mp h
    rw [this]
  | succ m ih =>
    rcases Nat.lt_or_ge n (m + 1) with h1 | h1
    · exact le_trans (ih (Nat.lt_succ_iff.mp h1)) (tokenAfter_step results m)
    · have : n = m + 1 := Nat.le_antisymm h h1
      rw [this]

/-- C7: a per-file deadline elapsing makes that scheduled file's outcome
`Failure{TimedOut}`, and stores 1 into the shared cancellation token;
the token starts at 0, is monotone across the request's events, takes
only the values 0 and 1, and once nonzero never returns to 0. -/
theorem timeout_flag_semantics (file : File) (results : List TaskResult)
    (n m : Nat)
    (hsched : ∃ c, (prepare_file_contents file).2 = Except.ok c) :
    processFile file .timedOut
      = .Failure file.ident (file.filename.getD "") (resolvedLanguage file)
          .TimedOut ∧
    tokenAfter results 0 = 0 ∧
    (results[n]? = some .timedOut → tokenAfter results (n + 1) = 1) ∧
    (n ≤ m → tokenAfter results n ≤ tokenAfter results m) ∧
    (tokenAfter results n = 0 ∨ tokenAfter results n = 1) ∧
    (tokenAfter results n ≠ 0 → n ≤ m → tokenAfter results m ≠ 0) := by
  obtain ⟨c, hc⟩ := hsched
  have hpair : prepare_file_contents file
      = ((prepare_file_contents file).1, Except.ok c) := by
    rw [← hc]
  refine ⟨?_, rfl, ?_, ?_, ?_, ?_⟩
  · unfold processFile
    rw [hpair]
    rfl
  · intro h
    unfold tokenAfter
    simp [h]
  · exact fun h => tokenAfter_mono results h
  · have := tokenAfter_le_one results n
    omega
  · intro hnz hle
    have h1 := tokenAfter_mono results hle
    omega

/-- C7, witnessed with a scheduled C file and the one-event trace in
which its deadline elapses. -/
theorem timeout_flag_semantics_witness :
    processFile ⟨0, some "t.c", some [105], .C, false⟩ .timedOut
      = .Failure 0 "t.c"
          (resolvedLanguage ⟨0, some "t.c", some [105], .C, false⟩) .TimedOut ∧
    tokenAfter [.timedOut] 0 = 0 ∧ tokenAfter [.timedOut] 1 = 1 := by
  have h := timeout_flag_semantics ⟨0, some "t.c", some [105], .C, false⟩
    [.timedOut] 0 1 ⟨[105], by decide⟩
  exact ⟨h.1, h.2.1, h.2.2.1 rfl⟩

/-- C10: a decoded request whose `files` vector is absent behaves
exactly as one with an empty vector — `files().unwrap_or_default()` —
yielding HTTP 200 with an empty documents vector, independent of any
scheduled work. -/
theorem absent_files_like_empty (state : ServerState) (timeout_ms : Nat)
    (harvested harvested2 : List HighlightOutput)
    (hok : effectiveTimeout state timeout_ms ≤ state.max_per_file_timeout) :
    html_handler state ⟨none, timeout_ms⟩ harvested
      = html_handler state ⟨some [], timeout_ms⟩ harvested2 ∧
    html_handler state ⟨none, timeout_ms⟩ harvested = .ok (200, ⟨some []⟩) ∧
    respond (html_handler state ⟨none, timeout_ms⟩ harvested) = (200, some []) := by
  have hnot : ¬ effectiveTimeout state timeout_ms > state.max_per_file_timeout :=
    not_lt.mpr hok
  refine ⟨?_, ?_, ?_⟩ <;>
    simp [html_handler, hnot, build_response, respond]

/-- C10, witnessed at a concrete server state with nonempty harvested
outcomes on both sides. -/
theorem absent_files_like_empty_witness :
    html_handler ⟨30000, 60000⟩ ⟨none, 0⟩ [.Failure 1 "" none .TimedOut]
      = html_handler ⟨30000, 60000⟩ ⟨some [], 0⟩ [] ∧
    respond (html_handler ⟨30000, 60000⟩ ⟨none, 0⟩ [.Failure 1 "" none .TimedOut])
      = (200, some []) := by
  have h := absent_files_like_empty ⟨30000, 60000⟩ 0
    [.Failure 1 "" none .TimedOut] [] (by decide)
  exact ⟨h.1, h.2.2⟩

/-- Every branch of the per-file pipeline carries the work unit's ident
into the outcome. -/
theorem processFile_identOf (file : File) (res : TaskResult) :
    (processFile file res).identOf = file.ident := by
  unfold processFile
  rcases hp : prepare_file_contents file with ⟨lang, prep⟩
  cases prep with
  | error e => rfl
  | ok c =>
    cases res with
    | completed ts =>
      unfold highlight
      cases lang with
      | none => rfl
      | some l => cases ts <;> rfl
    | joinError c2 => rfl
    | timedOut => rfl

/-- With matching lengths, the pointwise outputs' idents are exactly the
request files' idents, in order. -/
theorem fileOutputs_map_identOf (files : List File) (results : List TaskResult)
    (hlen : results.length = files.length) :
    (fileOutputs files results).map HighlightOutput.identOf
      = files.map File.ident := by
  induction files generalizing results with
  | nil => rfl
  | cons f fs ih =>
    cases results with
    | nil => simp at hlen
    | cons r rs =>
      have h1 : fileOutputs (f :: fs) (r :: rs)
          = processFile f r :: fileOutputs fs rs := rfl
      rw [h1, List.map_cons, List.map_cons, processFile_identOf,
        ih rs (by simpa using hlen)]

/-- With matching lengths, there is one pointwise output per file. -/
theorem fileOutputs_length (files : List File) (results : List TaskResult)
    (hlen : results.length = files.length) :
    (fileOutputs files results).length = files.length := by
  simp [fileOutputs, hlen]

/-- C1: for every request whose effective timeout passes the bound, the
HTML handler answers 200 with exactly one document per file entry, and
the multiset of document idents equals the multiset of request idents,
for every resolution of the scheduled tasks and every harvest order
(every permutation of the pointwise outputs); entries that fail
preparation or time out still contribute their document. -/
theorem response_preserves_idents (state : ServerState) (request : Request)
    (results : List TaskResult) (harvested : List HighlightOutput)
    (hlen : results.length = (request.files.getD []).length)
    (hperm : harvested.Perm (fileOutputs (request.files.getD []) results))
    (hok : effectiveTimeout state request.timeout_ms
      ≤ state.max_per_file_timeout) :
    ∃ docs : List Document,
      html_handler state request harvested = .ok (200, ⟨some docs⟩) ∧
      docs.length = (request.files.getD []).length ∧
      (docs.map Document.ident).Perm ((request.files.getD []).map File.ident) := by
  have hnot : ¬ effectiveTimeout state request.timeout_ms
      > state.max_per_file_timeout := not_lt.mpr hok
  have hids : (harvested.map mkDocument).map Document.ident
      = harvested.map HighlightOutput.identOf := by
    rw [List.map_map]
    rfl
  by_cases hemp : (request.files.getD []).isEmpty
  · have hfe : request.files.getD [] = [] := List.isEmpty_iff.mp hemp
    refine ⟨[], ?_, ?_, ?_⟩
    · simp [html_handler, hnot, hemp, build_response]
    · simp [hfe]
    · simp [hfe]
  · refine ⟨harvested.map mkDocument, ?_, ?_, ?_⟩
    · simp [html_handler, hnot, hemp, build_response]
    · rw [List.length_map, hperm.length_eq,
        fileOutputs_length _ _ hlen]
    · rw [hids]
      have h2 := hperm.map HighlightOutput.identOf
      rwa [fileOutputs_map_identOf _ _ hlen] at h2

/-- C1, witnessed on a two-file request (one C file that succeeds, one
unresolvable file) harvested in reversed completion order. -/
theorem response_preserves_idents_witness :
    ∃ docs : List Document,
      html_handler ⟨30000, 60000⟩
          ⟨some [⟨1, some "a.c", some [105], .C, false⟩,
                 ⟨2, some "x.unknownext", some [104], .Unspecified, false⟩], 0⟩
          [.Failure 2 "x.unknownext" none .InvalidLanguage,
           .Success 1 "a.c" C ["x"]]
        = .ok (200, ⟨some docs⟩) ∧
      docs.length
        = ((⟨some [⟨1, some "a.c", some [105], .C, false⟩,
              ⟨2, some "x.unknownext", some [104], .Unspecified, false⟩], 0⟩ :
            Request).files.getD []).length ∧
      (docs.map Document.ident).Perm
        (((⟨some [⟨1, some "a.c", some [105], .C, false⟩,
              ⟨2, some "x.unknownext", some [104], .Unspecified, false⟩], 0⟩ :
            Request).files.getD []).map File.ident) :=
  response_preserves_idents ⟨30000, 60000⟩
    ⟨some [⟨1, some "a.c", some [105], .C, false⟩,
           ⟨2, some "x.unknownext", some [104], .Unspecified, false⟩], 0⟩
    [.completed (.ok ["x"]), .timedOut]
    [.Failure 2 "x.unknownext" none .InvalidLanguage,
     .Success 1 "a.c" C ["x"]]
    (by decide) (by decide) (by decide)

end Daylight
